import Mathlib

/-!
Verification of the nyoom-json streaming JSON serializer.

The buffer (`JsonBuffer`, an append-only text sink) is modelled as `List Char`;
`push c` is `++ [c]` and `push_str s` is `++ s.toList`.  Writers are structures
holding the buffer handle and their separator flag, exactly as in `lib.rs`, and
the borrow/drop lifecycle of a scope is modelled by interaction traces: a scope
receives the buffer, a list of operations is applied, and release (`Drop`)
appends the closing delimiter and returns the buffer to the parent.
-/

namespace Nyoom

/-- Left brace character, written numerically. -/
def lbrace : Char := Char.ofNat 123

/-- Right brace character, written numerically. -/
def rbrace : Char := Char.ofNat 125

/-- Lower-case hexadecimal digit for `n < 16`. -/
def hexDigit (n : Nat) : Char :=
  if n < 10 then Char.ofNat (48 + n) else Char.ofNat (87 + n)

/-- Modelled from the spec: the repository's `src/escape.rs` (the `ESCAPE`
256-entry lookup table) is not under `src/`.  Spec §4.1: a byte needs escaping
iff it is `"`, `\`, or a control character (code point < 0x20); non-ASCII
bytes never need escaping.  We work at the Unicode-scalar level, which agrees
with the byte-wise table on valid UTF-8 text. -/
def needsEscape (c : Char) : Bool :=
  c = '"' || c = '\\' || c.toNat < 0x20

/-- Modelled from the spec: the escape for one character, per spec §4.1 and
§8 — `"`, `\` and the usual control characters get their two-character
escape, the remaining control characters get `\u00XX`, everything else is
copied verbatim (`src/escape.rs` is not under `src/`). -/
def escapeChar (c : Char) : List Char :=
  if c = '"' then ['\\', '"']
  else if c = '\\' then ['\\', '\\']
  else if c = Char.ofNat 8 then ['\\', 'b']
  else if c = Char.ofNat 9 then ['\\', 't']
  else if c = Char.ofNat 10 then ['\\', 'n']
  else if c = Char.ofNat 12 then ['\\', 'f']
  else if c = Char.ofNat 13 then ['\\', 'r']
  else if c.toNat < 0x20 then
    ['\\', 'u', '0', '0', hexDigit (c.toNat / 16), hexDigit (c.toNat % 16)]
  else [c]

/-- Modelled from the spec: `escape_str` from the missing `src/escape.rs`.
Spec §4.1: append each input unit's escape (or the unit itself) in order. -/
def escape_str : List Char → List Char
  | [] => []
  | c :: cs => escapeChar c ++ escape_str cs

/-- Value of a hexadecimal digit character, as a standard JSON parser reads it. -/
def unhex (c : Char) : Option Nat :=
  if '0' ≤ c ∧ c ≤ '9' then some (c.toNat - 48)
  else if 'a' ≤ c ∧ c ≤ 'f' then some (c.toNat - 87)
  else if 'A' ≤ c ∧ c ≤ 'F' then some (c.toNat - 55)
  else none

/-- A standard JSON parser's reading of a single-character escape. -/
def simpleUnescape (e : Char) : Option Char :=
  if e = '"' then some '"'
  else if e = '\\' then some '\\'
  else if e = '/' then some '/'
  else if e = 'b' then some (Char.ofNat 8)
  else if e = 't' then some (Char.ofNat 9)
  else if e = 'n' then some (Char.ofNat 10)
  else if e = 'f' then some (Char.ofNat 12)
  else if e = 'r' then some (Char.ofNat 13)
  else none

/-- Body of a standard JSON string literal: parses up to and including the
closing quote, returning the decoded text and the unconsumed remainder.
Raw control characters are rejected, as the JSON grammar requires.  `fuel`
only bounds the recursion; one unit per consumed character suffices. -/
def parseStringBodyF : Nat → List Char → Option (List Char × List Char)
  | 0, _ => none
  | _ + 1, [] => none
  | fuel + 1, c :: rest =>
    if c = '"' then some ([], rest)
    else if c = '\\' then
      match rest with
      | [] => none
      | e :: rest2 =>
        if e = 'u' then
          match rest2 with
          | h1 :: h2 :: h3 :: h4 :: rest3 =>
            match unhex h1, unhex h2, unhex h3, unhex h4 with
            | some a, some b, some c2, some d =>
              match parseStringBodyF fuel rest3 with
              | some (s, r) => some (Char.ofNat (4096 * a + 256 * b + 16 * c2 + d) :: s, r)
              | none => none
            | _, _, _, _ => none
          | _ => none
        else
          match simpleUnescape e with
          | some c2 =>
            match parseStringBodyF fuel rest2 with
            | some (s, r) => some (c2 :: s, r)
            | none => none
          | none => none
    else if c.toNat < 0x20 then none
    else
      match parseStringBodyF fuel rest with
      | some (s, r) => some (c :: s, r)
      | none => none

/-- A standard JSON parser for a string literal: an opening quote, then the
escaped body up to the closing quote.  Returns the decoded text and the
unconsumed remainder of the input. -/
def parseJsonString (l : List Char) : Option (List Char × List Char) :=
  match l with
  | c :: rest => if c = '"' then parseStringBodyF (rest.length + 1) rest else none
  | [] => none

/-- The closed set of primitive values writable to JSON (`write_to_json.rs`):
unsigned and signed integers (u8..u64, i8..i64), booleans, `()`/`Null`,
`&str` (escaped), `UnescapedStr` (verbatim), and `&T` for copyable `T`.
Floats are the external `ryu` collaborator and are out of the claims'
reach. -/
inductive Prim where
  | uint (n : Nat)
  | int (n : Int)
  | bool (b : Bool)
  | null
  | str (s : List Char)
  | unescaped (s : List Char)
  | ref (p : Prim)

/-- `WriteToJson::write_to_json` (`write_to_json.rs`): the token one primitive
appends to the buffer.  Integer formatting is the external `itoa`
collaborator, which the spec fixes as minimal decimal text (`Nat.repr`,
`Int.repr`).  `&str` pushes `"`, the escaped body, `"`; `UnescapedStr`
pushes its text verbatim between quotes; `&T` delegates to `T`. -/
def write_to_json : Prim → List Char
  | .uint n => (Nat.repr n).toList
  | .int n => (Int.repr n).toList
  | .bool true => "true".toList
  | .bool false => "false".toList
  | .null => "null".toList
  | .str s => '"' :: (escape_str s ++ ['"'])
  | .unescaped s => '"' :: (s ++ ['"'])
  | .ref p => write_to_json p

/-- `Key` (`lib.rs`): either an `UnescapedStr` (written verbatim between
quotes) or anything string-like (written through the escaping `&str` path). -/
inductive Key where
  | unescaped (s : List Char)
  | str (s : List Char)

/-- `Key::write`: both implementations delegate to the corresponding
`WriteToJson` text. -/
def Key.write : Key → List Char
  | .unescaped s => write_to_json (Prim.unescaped s)
  | .str s => write_to_json (Prim.str s)

/-- `ArrayWriter` (`lib.rs`): the exclusively borrowed buffer plus the
`first_element` separator flag. -/
structure ArrayWriter where
  buf : List Char
  first_element : Bool

/-- `ArrayWriter::start`: push `[`, set `first_element = true`. -/
def ArrayWriter.start (buf : List Char) : ArrayWriter :=
  { buf := buf ++ ['['], first_element := true }

/-- `ArrayWriter::comma`: on the first element just clear the flag, otherwise
push `,`. -/
def ArrayWriter.comma (w : ArrayWriter) : ArrayWriter :=
  match w.first_element with
  | true => { w with first_element := false }
  | false => { w with buf := w.buf ++ [','] }

/-- `ArrayWriter::add`: separator-if-needed, then the value's token. -/
def ArrayWriter.add (w : ArrayWriter) (p : Prim) : ArrayWriter :=
  let w' := w.comma
  { w' with buf := w'.buf ++ write_to_json p }

/-- `ArrayWriter::extend`: `add` applied to each value in sequence order. -/
def ArrayWriter.extend (w : ArrayWriter) (ps : List Prim) : ArrayWriter :=
  ps.foldl ArrayWriter.add w

/-- `impl Drop for ArrayWriter`: push `]` and give the buffer back. -/
def ArrayWriter.drop (w : ArrayWriter) : List Char :=
  w.buf ++ [']']

/-- `ObjectWriter` (`lib.rs`): the exclusively borrowed buffer plus the
`first_element` separator flag. -/
structure ObjectWriter where
  buf : List Char
  first_element : Bool

/-- `ObjectWriter::start`: push `{`, set `first_element = true`. -/
def ObjectWriter.start (buf : List Char) : ObjectWriter :=
  { buf := buf ++ [lbrace], first_element := true }

/-- `ObjectWriter::comma`: on the first field just clear the flag, otherwise
push `,`. -/
def ObjectWriter.comma (w : ObjectWriter) : ObjectWriter :=
  match w.first_element with
  | true => { w with first_element := false }
  | false => { w with buf := w.buf ++ [','] }

/-- `ObjectWriter::key`: separator-if-needed, then the key's text, then `:`. -/
def ObjectWriter.key (w : ObjectWriter) (k : Key) : ObjectWriter :=
  let w' := w.comma
  { w' with buf := w'.buf ++ k.write ++ [':'] }

/-- `ObjectWriter::field`: the key (with separator and colon), then the
value's token. -/
def ObjectWriter.field (w : ObjectWriter) (k : Key) (p : Prim) : ObjectWriter :=
  let w' := w.key k
  { w' with buf := w'.buf ++ write_to_json p }

/-- `impl Drop for ObjectWriter`: push `}` and give the buffer back. -/
def ObjectWriter.drop (w : ObjectWriter) : List Char :=
  w.buf ++ [rbrace]

/-- `SingleValueSerializer` (`lib.rs`): holds the buffer handle inside a
`ManuallyDrop` guard.  Its three consuming operations take the handle out and
`mem::forget` the scope, so its `Drop` code runs only when none of them was
called. -/
structure SingleValueSerializer where
  guard : List Char

/-- `SingleValueSerializer::new`. -/
def SingleValueSerializer.new (buf : List Char) : SingleValueSerializer :=
  { guard := buf }

/-- `SingleValueSerializer::write`: take the handle, write the token, forget
the scope (so `Drop` never runs for it). -/
def SingleValueSerializer.write (s : SingleValueSerializer) (p : Prim) : List Char :=
  s.guard ++ write_to_json p

/-- `SingleValueSerializer::array`: take the handle, open an array scope on
it, forget this scope. -/
def SingleValueSerializer.array (s : SingleValueSerializer) : ArrayWriter :=
  ArrayWriter.start s.guard

/-- `SingleValueSerializer::object`: take the handle, open an object scope on
it, forget this scope. -/
def SingleValueSerializer.object (s : SingleValueSerializer) : ObjectWriter :=
  ObjectWriter.start s.guard

/-- `impl Drop for SingleValueSerializer`: push the `null` literal. -/
def SingleValueSerializer.drop (s : SingleValueSerializer) : List Char :=
  s.guard ++ "null".toList

/-- `Serializer` (`lib.rs`): a transparent wrapper of the caller's buffer. -/
structure Serializer where
  buf : List Char

/-- `Serializer::new`. -/
def Serializer.new (buf : List Char) : Serializer :=
  { buf := buf }

/-- `Serializer::write`: the primitive's token, straight into the buffer. -/
def Serializer.write (s : Serializer) (p : Prim) : List Char :=
  s.buf ++ write_to_json p

/-- `Serializer::array`. -/
def Serializer.array (s : Serializer) : ArrayWriter :=
  ArrayWriter.start s.buf

/-- `Serializer::object`. -/
def Serializer.object (s : Serializer) : ObjectWriter :=
  ObjectWriter.start s.buf

/-- `Serializer::end` — `pub fn end(self) {}` and `Serializer` has no `Drop`
implementation, so releasing it leaves the buffer as it stands.  (`end` is a
Lean keyword, hence the name.) -/
def Serializer.endDoc (s : Serializer) : List Char :=
  s.buf

mutual

/-- One operation a caller can perform on a live `ArrayWriter`.  A nested
scope opener carries the full interaction with the child scope (its op list),
since Rust's borrow discipline forces the child to be released before the
parent is usable again; the op list may stop anywhere, modelling a caller
that abandons the child early. -/
inductive ArrOp where
  | add (p : Prim)
  | extend (ps : List Prim)
  | add_complex (c : Option SingleOp)
  | add_object (fs : List ObjOp)
  | add_array (els : List ArrOp)

/-- One operation a caller can perform on a live `ObjectWriter`. -/
inductive ObjOp where
  | field (k : Key) (p : Prim)
  | complex_field (k : Key) (c : Option SingleOp)
  | object_field (k : Key) (fs : List ObjOp)
  | array_field (k : Key) (els : List ArrOp)

/-- The single operation a caller may perform on a `SingleValueSerializer`
before it is released; each of the three consumes the scope, so at most one
ever happens (`Option SingleOp` is the scope's whole lifecycle). -/
inductive SingleOp where
  | write (p : Prim)
  | array (els : List ArrOp)
  | object (fs : List ObjOp)

end

mutual

/-- Runs one array-scope operation, per the corresponding `ArrayWriter`
method: nested openers write the separator first (`add_object`, `add_array`,
`add_complex` all begin with `self.comma()`), then hand the buffer to the
child scope, whose release appends its closing delimiter and returns the
buffer. -/
def runArrOp (w : ArrayWriter) : ArrOp → ArrayWriter
  | .add p => w.add p
  | .extend ps => w.extend ps
  | .add_complex c =>
    let w' := w.comma
    { w' with buf := runSingle (SingleValueSerializer.new w'.buf) c }
  | .add_object fs =>
    let w' := w.comma
    { w' with buf := (runObjOps (ObjectWriter.start w'.buf) fs).drop }
  | .add_array els =>
    let w' := w.comma
    { w' with buf := (runArrOps (ArrayWriter.start w'.buf) els).drop }

/-- Runs a sequence of operations on a live array scope. -/
def runArrOps (w : ArrayWriter) : List ArrOp → ArrayWriter
  | [] => w
  | op :: ops => runArrOps (runArrOp w op) ops

/-- Runs one object-scope operation, per the corresponding `ObjectWriter`
method: each begins with `self.key(k)` (separator, key text, colon), then
either the value token or the child scope's full interaction and release. -/
def runObjOp (w : ObjectWriter) : ObjOp → ObjectWriter
  | .field k p => w.field k p
  | .complex_field k c =>
    let w' := w.key k
    { w' with buf := runSingle (SingleValueSerializer.new w'.buf) c }
  | .object_field k fs =>
    let w' := w.key k
    { w' with buf := (runObjOps (ObjectWriter.start w'.buf) fs).drop }
  | .array_field k els =>
    let w' := w.key k
    { w' with buf := (runArrOps (ArrayWriter.start w'.buf) els).drop }

/-- Runs a sequence of operations on a live object scope. -/
def runObjOps (w : ObjectWriter) : List ObjOp → ObjectWriter
  | [] => w
  | op :: ops => runObjOps (runObjOp w op) ops

/-- The whole lifecycle of a `SingleValueSerializer`: if no operation was
invoked, the scope is dropped (emitting `null`); otherwise the one chosen
operation consumes it — `write` appends the token, `array`/`object` hand the
buffer to the nested scope whose own release closes it. -/
def runSingle (s : SingleValueSerializer) : Option SingleOp → List Char
  | none => s.drop
  | some (.write p) => s.write p
  | some (.array els) => (runArrOps s.array els).drop
  | some (.object fs) => (runObjOps s.object fs).drop

end

/-- The full lifecycle of an array scope opened on `buf`: `start`, the
caller's operations, then release. -/
def arrayScope (buf : List Char) (ops : List ArrOp) : List Char :=
  (runArrOps (ArrayWriter.start buf) ops).drop

/-- The full lifecycle of an object scope opened on `buf`: `start`, the
caller's operations, then release. -/
def objectScope (buf : List Char) (fs : List ObjOp) : List Char :=
  (runObjOps (ObjectWriter.start buf) fs).drop

/-- Comma-separated catenation of element texts, given the scope's current
`first_element` flag: every element after the first is preceded by `,`. -/
def commaSep (first : Bool) : List (List Char) → List Char
  | [] => []
  | e :: es => (if first then [] else [',']) ++ e ++ commaSep false es

mutual

/-- The element texts one array-scope operation contributes (one per element:
`extend` contributes one per value, an abandoned-free nested scope contributes
its full closed text). -/
def arrOpElems : ArrOp → List (List Char)
  | .add p => [write_to_json p]
  | .extend ps => ps.map write_to_json
  | .add_complex c => [singleText c]
  | .add_object fs => [lbrace :: (commaSep true (objFields fs) ++ [rbrace])]
  | .add_array els => ['[' :: (commaSep true (arrElems els) ++ [']'])]

/-- The element texts a whole operation sequence contributes. -/
def arrElems : List ArrOp → List (List Char)
  | [] => []
  | op :: ops => arrOpElems op ++ arrElems ops

/-- The text of one object field: key text, colon, value text. -/
def fieldText : ObjOp → List Char
  | .field k p => k.write ++ ':' :: write_to_json p
  | .complex_field k c => k.write ++ ':' :: singleText c
  | .object_field k fs => k.write ++ ':' :: lbrace :: (commaSep true (objFields fs) ++ [rbrace])
  | .array_field k els => k.write ++ ':' :: '[' :: (commaSep true (arrElems els) ++ [']'])

/-- The field texts a whole object-operation sequence contributes. -/
def objFields : List ObjOp → List (List Char)
  | [] => []
  | f :: fs => fieldText f :: objFields fs

/-- The text a single-value scope's lifecycle contributes: `null` when
abandoned, otherwise the one written value. -/
def singleText : Option SingleOp → List Char
  | none => "null".toList
  | some (.write p) => write_to_json p
  | some (.array els) => '[' :: (commaSep true (arrElems els) ++ [']'])
  | some (.object fs) => lbrace :: (commaSep true (objFields fs) ++ [rbrace])

end

/-- The interior text of an array scope (between `[` and `]`). -/
def arrInner (ops : List ArrOp) : List Char :=
  commaSep true (arrElems ops)

/-- The interior text of an object scope (between `{` and `}`). -/
def objInner (fs : List ObjOp) : List Char :=
  commaSep true (objFields fs)

/-- `UnescapedStr` (`write_to_json.rs`): a wrapper promising its text needs
no escaping. -/
structure UnescapedStr where
  val : List Char
  deriving DecidableEq

/-- `UnescapedStr::create`: a `debug_assert!` checks every byte against the
escape table (modelled from the spec, since the `ESCAPE` table's
`src/escape.rs` is not under `src/`: a byte's entry is nonzero iff it needs
escaping).  The check runs only when `debugAssertions` is set (non-production
builds); a failing assertion aborts, producing no value (`none`).  In
production the check is compiled out and the wrapper is produced
unconditionally. -/
def UnescapedStr.create (debugAssertions : Bool) (s : List Char) : Option UnescapedStr :=
  if debugAssertions && s.any needsEscape then none else some { val := s }

theorem isEmpty_append {α : Type} (l1 l2 : List α) :
    (l1 ++ l2).isEmpty = (l1.isEmpty && l2.isEmpty) := by
  cases l1 <;> simp

theorem comma_spec (w : ArrayWriter) :
    w.comma = { buf := w.buf ++ (if w.first_element then [] else [',']),
                first_element := false } := by
  obtain ⟨b, f⟩ := w
  cases f <;> simp [ArrayWriter.comma]

theorem objComma_spec (w : ObjectWriter) :
    w.comma = { buf := w.buf ++ (if w.first_element then [] else [',']),
                first_element := false } := by
  obtain ⟨b, f⟩ := w
  cases f <;> simp [ObjectWriter.comma]

theorem add_spec (w : ArrayWriter) (p : Prim) :
    w.add p = { buf := w.buf ++ commaSep w.first_element [write_to_json p],
                first_element := false } := by
  simp [ArrayWriter.add, comma_spec, commaSep]

theorem extend_spec (ps : List Prim) (w : ArrayWriter) :
    w.extend ps = { buf := w.buf ++ commaSep w.first_element (ps.map write_to_json),
                    first_element := w.first_element && (ps.map write_to_json).isEmpty } := by
  induction ps generalizing w with
  | nil => simp [ArrayWriter.extend, commaSep]
  | cons p ps ih =>
    have step : w.extend (p :: ps) = (w.add p).extend ps := rfl
    rw [step, ih, add_spec]
    simp [commaSep]

theorem key_spec (w : ObjectWriter) (k : Key) :
    w.key k = { buf := w.buf ++ (if w.first_element then [] else [',']) ++ k.write ++ [':'],
                first_element := false } := by
  simp [ObjectWriter.key, objComma_spec]

theorem field_spec (w : ObjectWriter) (k : Key) (p : Prim) :
    w.field k p = { buf := w.buf ++ commaSep w.first_element [fieldText (ObjOp.field k p)],
                    first_element := false } := by
  simp [ObjectWriter.field, key_spec, commaSep, fieldText]

theorem commaSep_append (f : Bool) (e1 e2 : List (List Char)) :
    commaSep f (e1 ++ e2) = commaSep f e1 ++ commaSep (f && e1.isEmpty) e2 := by
  induction e1 generalizing f with
  | nil => simp [commaSep]
  | cons e es ih => simp [commaSep, ih]

mutual

theorem runArrOp_spec (w : ArrayWriter) (op : ArrOp) :
    runArrOp w op = { buf := w.buf ++ commaSep w.first_element (arrOpElems op),
                      first_element := w.first_element && (arrOpElems op).isEmpty } := by
  cases op with
  | add p => simp [runArrOp, add_spec, arrOpElems, commaSep]
  | extend ps => simp [runArrOp, extend_spec, arrOpElems]
  | add_complex c =>
    rw [runArrOp, runSingle_spec]
    simp [comma_spec, SingleValueSerializer.new, arrOpElems, commaSep]
  | add_object fs =>
    rw [runArrOp, runObjOps_spec]
    simp [comma_spec, ObjectWriter.start, ObjectWriter.drop, arrOpElems, commaSep]
  | add_array els =>
    rw [runArrOp, runArrOps_spec]
    simp [comma_spec, ArrayWriter.start, ArrayWriter.drop, arrOpElems, commaSep]
termination_by sizeOf op

theorem runArrOps_spec (w : ArrayWriter) (ops : List ArrOp) :
    runArrOps w ops = { buf := w.buf ++ commaSep w.first_element (arrElems ops),
                        first_element := w.first_element && (arrElems ops).isEmpty } := by
  cases ops with
  | nil => simp [runArrOps, arrElems, commaSep]
  | cons op ops =>
    rw [runArrOps, runArrOps_spec (runArrOp w op) ops, runArrOp_spec w op]
    simp [arrElems, commaSep_append, isEmpty_append, Bool.and_assoc]
termination_by sizeOf ops

theorem runObjOp_spec (w : ObjectWriter) (f : ObjOp) :
    runObjOp w f = { buf := w.buf ++ commaSep w.first_element [fieldText f],
                     first_element := false } := by
  cases f with
  | field k p => simp [runObjOp, field_spec]
  | complex_field k c =>
    rw [runObjOp, runSingle_spec]
    simp [key_spec, SingleValueSerializer.new, fieldText, commaSep]
  | object_field k fs =>
    rw [runObjOp, runObjOps_spec]
    simp [key_spec, ObjectWriter.start, ObjectWriter.drop, fieldText, commaSep]
  | array_field k els =>
    rw [runObjOp, runArrOps_spec]
    simp [key_spec, ArrayWriter.start, ArrayWriter.drop, fieldText, commaSep]
termination_by sizeOf f

theorem runObjOps_spec (w : ObjectWriter) (fs : List ObjOp) :
    runObjOps w fs = { buf := w.buf ++ commaSep w.first_element (objFields fs),
                       first_element := w.first_element && (objFields fs).isEmpty } := by
  cases fs with
  | nil => simp [runObjOps, objFields, commaSep]
  | cons f fs =>
    rw [runObjOps, runObjOps_spec (runObjOp w f) fs, runObjOp_spec w f]
    simp [objFields, commaSep, commaSep_append]
termination_by sizeOf fs

theorem runSingle_spec (s : SingleValueSerializer) (c : Option SingleOp) :
    runSingle s c = s.guard ++ singleText c := by
  cases c with
  | none => simp [runSingle, SingleValueSerializer.drop, singleText]
  | some op =>
    cases op with
    | write p => simp [runSingle, SingleValueSerializer.write, singleText]
    | array els =>
      rw [runSingle, runArrOps_spec]
      simp [SingleValueSerializer.array, ArrayWriter.start, ArrayWriter.drop, singleText]
    | object fs =>
      rw [runSingle, runObjOps_spec]
      simp [SingleValueSerializer.object, ObjectWriter.start, ObjectWriter.drop, singleText]
termination_by sizeOf c

end

theorem arrayScope_eq (buf : List Char) (ops : List ArrOp) :
    arrayScope buf ops = buf ++ '[' :: (arrInner ops ++ [']']) := by
  simp [arrayScope, runArrOps_spec, ArrayWriter.start, ArrayWriter.drop, arrInner]

theorem objectScope_eq (buf : List Char) (fs : List ObjOp) :
    objectScope buf fs = buf ++ lbrace :: (objInner fs ++ [rbrace]) := by
  simp [objectScope, runObjOps_spec, ObjectWriter.start, ObjectWriter.drop, objInner]

theorem commaSep_eq_intercalate (es : List (List Char)) :
    commaSep true es = List.intercalate [','] es ∧
    commaSep false es = if es.isEmpty then [] else ',' :: List.intercalate [','] es := by
  induction es with
  | nil => simp [commaSep, List.intercalate]
  | cons e es ih =>
    obtain ⟨iht, ihf⟩ := ih
    refine ⟨?_, ?_⟩ <;>
      · simp [commaSep, ihf]
        cases es with
        | nil => simp [List.intercalate]
        | cons e2 es2 => simp [List.intercalate]

theorem arrElems_map_add (ps : List Prim) :
    arrElems (ps.map ArrOp.add) = ps.map write_to_json := by
  induction ps with
  | nil => simp [arrElems]
  | cons p ps ih => simp [arrElems, arrOpElems, ih]

theorem objFields_map_field (kvs : List (Key × Prim)) :
    objFields (kvs.map fun kv => ObjOp.field kv.1 kv.2) =
      kvs.map fun kv => kv.1.write ++ ':' :: write_to_json kv.2 := by
  induction kvs with
  | nil => simp [objFields]
  | cons kv kvs ih => simp [objFields, fieldText, ih]

theorem foldl_add_eq_runArrOps (ps : List Prim) (w : ArrayWriter) :
    ps.foldl ArrayWriter.add w = runArrOps w (ps.map ArrOp.add) := by
  induction ps generalizing w with
  | nil => simp [runArrOps]
  | cons p ps ih => simp [runArrOps, runArrOp, ih, ArrayWriter.add]

theorem unhex_hexDigit : ∀ n < 16, unhex (hexDigit n) = some n := by decide

theorem parseF_quote (fuel : Nat) (tail : List Char) :
    parseStringBodyF (fuel + 1) ('"' :: tail) = some ([], tail) := by
  simp [parseStringBodyF]

theorem parseF_verbatim (c : Char) (h1 : c ≠ '"') (h2 : c ≠ '\\')
    (h3 : ¬ c.toNat < 0x20) (fuel : Nat) (tail : List Char) :
    parseStringBodyF (fuel + 1) (c :: tail) =
      (parseStringBodyF fuel tail).map fun p => (c :: p.1, p.2) := by
  cases htail : parseStringBodyF fuel tail with
  | none => simp [parseStringBodyF, h1, h2, h3, htail]
  | some p => simp [parseStringBodyF, h1, h2, h3, htail]

theorem parseF_escape (e c : Char) (he : simpleUnescape e = some c) (hu : e ≠ 'u')
    (fuel : Nat) (tail : List Char) :
    parseStringBodyF (fuel + 1) ('\\' :: e :: tail) =
      (parseStringBodyF fuel tail).map fun p => (c :: p.1, p.2) := by
  cases htail : parseStringBodyF fuel tail with
  | none => simp +decide [parseStringBodyF, he, hu, htail]
  | some p => simp +decide [parseStringBodyF, he, hu, htail]

theorem parseF_u (h1 h2 h3 h4 : Char) (a b c2 d : Nat)
    (ha : unhex h1 = some a) (hb : unhex h2 = some b)
    (hc : unhex h3 = some c2) (hd : unhex h4 = some d)
    (fuel : Nat) (tail : List Char) :
    parseStringBodyF (fuel + 1) ('\\' :: 'u' :: h1 :: h2 :: h3 :: h4 :: tail) =
      (parseStringBodyF fuel tail).map
        fun p => (Char.ofNat (4096 * a + 256 * b + 16 * c2 + d) :: p.1, p.2) := by
  cases htail : parseStringBodyF fuel tail with
  | none => simp +decide [parseStringBodyF, ha, hb, hc, hd, htail]
  | some p => simp +decide [parseStringBodyF, ha, hb, hc, hd, htail]

theorem parse_escape_body (s : List Char) :
    ∀ (fuel : Nat) (r : List Char),
      (escape_str s ++ '"' :: r).length ≤ fuel →
      parseStringBodyF fuel (escape_str s ++ '"' :: r) = some (s, r) := by
  induction s with
  | nil =>
    intro fuel r h
    cases fuel with
    | zero => simp [escape_str] at h
    | succ f => simp [escape_str, parseF_quote]
  | cons c cs ih =>
    intro fuel r h
    rw [escape_str, List.append_assoc] at h ⊢
    by_cases h1 : c = '"'
    · subst h1
      rw [show escapeChar '"' = ['\\', '"'] from by decide] at h ⊢
      cases fuel with
      | zero => simp at h
      | succ f =>
        have hf : (escape_str cs ++ '"' :: r).length ≤ f := by simp at h ⊢; omega
        rw [List.cons_append, List.singleton_append,
          parseF_escape '"' '"' (by decide) (by decide), ih f r hf]
        rfl
    by_cases h2 : c = '\\'
    · subst h2
      rw [show escapeChar '\\' = ['\\', '\\'] from by decide] at h ⊢
      cases fuel with
      | zero => simp at h
      | succ f =>
        have hf : (escape_str cs ++ '"' :: r).length ≤ f := by simp at h ⊢; omega
        rw [List.cons_append, List.singleton_append,
          parseF_escape '\\' '\\' (by decide) (by decide), ih f r hf]
        rfl
    by_cases h3 : c = Char.ofNat 8
    · subst h3
      rw [show escapeChar (Char.ofNat 8) = ['\\', 'b'] from by decide] at h ⊢
      cases fuel with
      | zero => simp at h
      | succ f =>
        have hf : (escape_str cs ++ '"' :: r).length ≤ f := by simp at h ⊢; omega
        rw [List.cons_append, List.singleton_append,
          parseF_escape 'b' (Char.ofNat 8) (by decide) (by decide), ih f r hf]
        rfl
    by_cases h4 : c = Char.ofNat 9
    · subst h4
      rw [show escapeChar (Char.ofNat 9) = ['\\', 't'] from by decide] at h ⊢
      cases fuel with
      | zero => simp at h
      | succ f =>
        have hf : (escape_str cs ++ '"' :: r).length ≤ f := by simp at h ⊢; omega
        rw [List.cons_append, List.singleton_append,
          parseF_escape 't' (Char.ofNat 9) (by decide) (by decide), ih f r hf]
        rfl
    by_cases h5 : c = Char.ofNat 10
    · subst h5
      rw [show escapeChar (Char.ofNat 10) = ['\\', 'n'] from by decide] at h ⊢
      cases fuel with
      | zero => simp at h
      | succ f =>
        have hf : (escape_str cs ++ '"' :: r).length ≤ f := by simp at h ⊢; omega
        rw [List.cons_append, List.singleton_append,
          parseF_escape 'n' (Char.ofNat 10) (by decide) (by decide), ih f r hf]
        rfl
    by_cases h6 : c = Char.ofNat 12
    · subst h6
      rw [show escapeChar (Char.ofNat 12) = ['\\', 'f'] from by decide] at h ⊢
      cases fuel with
      | zero => simp at h
      | succ f =>
        have hf : (escape_str cs ++ '"' :: r).length ≤ f := by simp at h ⊢; omega
        rw [List.cons_append, List.singleton_append,
          parseF_escape 'f' (Char.ofNat 12) (by decide) (by decide), ih f r hf]
        rfl
    by_cases h7 : c = Char.ofNat 13
    · subst h7
      rw [show escapeChar (Char.ofNat 13) = ['\\', 'r'] from by decide] at h ⊢
      cases fuel with
      | zero => simp at h
      | succ f =>
        have hf : (escape_str cs ++ '"' :: r).length ≤ f := by simp at h ⊢; omega
        rw [List.cons_append, List.singleton_append,
          parseF_escape 'r' (Char.ofNat 13) (by decide) (by decide), ih f r hf]
        rfl
    by_cases h8 : c.toNat < 0x20
    · rw [show escapeChar c =
          ['\\', 'u', '0', '0', hexDigit (c.toNat / 16), hexDigit (c.toNat % 16)] from by
        simp [escapeChar, h1, h2, h3, h4, h5, h6, h7, h8]] at h ⊢
      cases fuel with
      | zero => simp at h
      | succ f =>
        have hf : (escape_str cs ++ '"' :: r).length ≤ f := by simp at h ⊢; omega
        rw [List.cons_append, List.cons_append, List.cons_append, List.cons_append,
          List.cons_append, List.singleton_append,
          parseF_u '0' '0' (hexDigit (c.toNat / 16)) (hexDigit (c.toNat % 16))
            0 0 (c.toNat / 16) (c.toNat % 16) (by decide) (by decide)
            (unhex_hexDigit _ (by omega)) (unhex_hexDigit _ (by omega)),
          ih f r hf]
        have hval : 4096 * 0 + 256 * 0 + 16 * (c.toNat / 16) + c.toNat % 16 = c.toNat := by
          omega
        simp only [Option.map, hval, Char.ofNat_toNat]
    · rw [show escapeChar c = [c] from by
        simp [escapeChar, h1, h2, h3, h4, h5, h6, h7, h8]] at h ⊢
      cases fuel with
      | zero => simp at h
      | succ f =>
        have hf : (escape_str cs ++ '"' :: r).length ≤ f := by simp at h ⊢; omega
        rw [List.singleton_append, parseF_verbatim c h1 h2 h8, ih f r hf]
        rfl

/-- C1: for every array or object scope, whatever operations the caller
performed before the scope is released — including none, or stopping partway
through an intended sequence (every operation list here is exactly such a
stopped-anywhere interaction) — the scope's full lifecycle output is its
opening delimiter, the interior contributed by the operations, and its
closing delimiter (`]` for arrays, `}` for objects) appended exactly once at
release, which in the model is the only place the closing delimiter is
produced (`Drop` in `lib.rs`), so the scope is always syntactically closed. -/
theorem scope_close_on_release (buf : List Char) (ops : List ArrOp) (fs : List ObjOp) :
    arrayScope buf ops = buf ++ '[' :: (arrInner ops ++ [']']) ∧
    objectScope buf fs = buf ++ lbrace :: (objInner fs ++ [rbrace]) :=
  ⟨arrayScope_eq buf ops, objectScope_eq buf fs⟩

/-- C1 witness: at a concrete buffer and concrete (partial) op lists, the
scope outputs are closed. -/
theorem scope_close_on_release_witness :
    arrayScope [] [ArrOp.add Prim.null] = '[' :: ("null".toList ++ [']']) ∧
    objectScope [] [] = [lbrace, rbrace] := by
  have h := scope_close_on_release [] [ArrOp.add Prim.null] []
  constructor
  · rw [h.1]
    simp [arrInner, arrElems, arrOpElems, commaSep, write_to_json]
  · rw [h.2]
    simp [objInner, objFields, commaSep]

/-- C2: adding N primitive values via `add` to a fresh array scope and
releasing it emits `[`, the N value tokens separated by exactly N−1 commas
(`List.intercalate` puts the separator strictly between consecutive tokens,
so none leads or trails and zero or one element has no comma), then `]`;
zero elements yields exactly `[]`. -/
theorem array_scope_comma_separated (buf : List Char) (ps : List Prim) :
    arrayScope buf (ps.map ArrOp.add) =
      buf ++ '[' :: (List.intercalate [','] (ps.map write_to_json) ++ [']']) := by
  rw [arrayScope_eq, arrInner, arrElems_map_add, (commaSep_eq_intercalate _).1]

/-- C3: a single-value scope released with none of {write, array, object}
invoked emits exactly `null`; each of the three operations consumes the scope
(taking the buffer handle out of the `ManuallyDrop` guard and forgetting the
scope, so its `Drop` can never run again) and the release then emits exactly
that operation's output and nothing else — no trailing `null`. -/
theorem single_value_scope_default_null (buf : List Char) (p : Prim)
    (els : List ArrOp) (fs : List ObjOp) :
    runSingle (SingleValueSerializer.new buf) none = buf ++ "null".toList ∧
    runSingle (SingleValueSerializer.new buf) (some (SingleOp.write p)) =
      buf ++ write_to_json p ∧
    runSingle (SingleValueSerializer.new buf) (some (SingleOp.array els)) =
      buf ++ '[' :: (arrInner els ++ [']']) ∧
    runSingle (SingleValueSerializer.new buf) (some (SingleOp.object fs)) =
      buf ++ lbrace :: (objInner fs ++ [rbrace]) := by
  refine ⟨?_, ?_, ?_, ?_⟩ <;>
    simp [runSingle_spec, singleText, SingleValueSerializer.new, arrInner, objInner]

/-- C4: the string encoder emits a quote, the escaped body (where `"`, `\`
and all code points below 0x20 become their two-character or `\u00XX`
escapes and everything else is copied verbatim), and a quote; a standard
JSON string-literal parse of the result consumes it entirely and yields back
exactly the original text. -/
theorem str_escape_roundtrip (s : List Char) :
    parseJsonString (write_to_json (Prim.str s)) = some (s, []) := by
  simp only [write_to_json, parseJsonString, if_pos]
  exact parse_escape_body s _ [] (by simp)

/-- C5: adding fields via `field(key, value)` to a fresh object scope and
releasing it emits `{`, then one `key:value` text per field (quoted escaped
key, one colon, the value token) with commas strictly between fields — never
before the first or after the last — then `}`. -/
theorem object_scope_fields_shape (buf : List Char) (kvs : List (Key × Prim)) :
    objectScope buf (kvs.map fun kv => ObjOp.field kv.1 kv.2) =
      buf ++ lbrace ::
        (List.intercalate [','] (kvs.map fun kv => kv.1.write ++ ':' :: write_to_json kv.2)
          ++ [rbrace]) := by
  rw [objectScope_eq, objInner, objFields_map_field, (commaSep_eq_intercalate _).1]

/-- C6: nested scopes close in strict reverse-of-open order: opening a
top-level array, opening an object inside it, adding fields a:1 and b:2,
closing the object, adding the array element 3, then closing the array
yields exactly the text given in the spec. -/
theorem nested_scopes_stack_discipline :
    arrayScope []
      [ArrOp.add_object
        [ObjOp.field (Key.str ['a']) (Prim.int 1), ObjOp.field (Key.str ['b']) (Prim.int 2)],
       ArrOp.add (Prim.int 3)] =
      "[\x7b\"a\":1,\"b\":2\x7d,3]".toList := by
  rw [arrayScope_eq]
  simp [arrInner, arrElems, arrOpElems, objFields, fieldText, commaSep, Key.write,
    write_to_json, escape_str, escapeChar]
  decide

/-- C7: `extend(sequence)` produces exactly the same writer state (buffer
output and separator flag) as calling `add` on each value of the sequence in
order. -/
theorem extend_is_sequential_add (w : ArrayWriter) (ps : List Prim) :
    runArrOps w [ArrOp.extend ps] = runArrOps w (ps.map ArrOp.add) := by
  have h1 : runArrOps w [ArrOp.extend ps] = w.extend ps := by
    simp [runArrOps, runArrOp]
  rw [h1, ArrayWriter.extend, foldl_add_eq_runArrOps]

/-- C8: `UnescapedStr::create`'s assertion checks every unit of the text
against the escape table and fires only in non-production builds (the flag);
writing an `UnescapedStr` appends the wrapped text verbatim between two
quotes without the escaping engine; and for a concrete violating string the
production build accepts it and the written output is not a correctly
delimited JSON string (a standard parse stops early, leaving unconsumed
text), with no error reported anywhere. -/
theorem unescaped_marker_debug_only (s : List Char) :
    (UnescapedStr.create true s = none ↔ s.any needsEscape = true) ∧
    UnescapedStr.create false s = some { val := s } ∧
    write_to_json (Prim.unescaped s) = '"' :: (s ++ ['"']) ∧
    UnescapedStr.create true ['a', '"', 'b'] = none ∧
    UnescapedStr.create false ['a', '"', 'b'] = some { val := ['a', '"', 'b'] } ∧
    parseJsonString (write_to_json (Prim.unescaped ['a', '"', 'b'])) =
      some (['a'], ['b', '"']) := by
  refine ⟨?_, by simp [UnescapedStr.create], rfl, by decide, by decide, by decide⟩
  by_cases hs : s.any needsEscape <;> simp [UnescapedStr.create, hs]

/-- C9: writing a reference to a copyable primitive appends exactly the same
text as writing the value itself (`impl WriteToJson for &T` delegates to the
dereferenced value). -/
theorem ref_writes_identically (p : Prim) :
    write_to_json (Prim.ref p) = write_to_json p := rfl

/-- C10: creating a top-level `Serializer` and releasing it (`end`, or
dropping it — it has no `Drop` implementation) without calling any entry
point leaves the buffer exactly unchanged: zero entry-point calls produce
empty output, not any JSON value. -/
theorem serializer_unused_is_frame (buf : List Char) :
    Serializer.endDoc (Serializer.new buf) = buf := rfl

end Nyoom
